import Mathlib

/-!
# Verification of the `permissible` permission-gated dispatch layer

Shallow embedding of `permissible` (permission evaluation, the
session/transaction coordinator, the resource dispatcher, and the deferred
ARQ job-queue session) together with theorems settling the specification
claims.  Python dicts are embedded as insertion-ordered association lists,
exceptions as `Except`/`Option` error values, and calls to the external
queue service as an explicit trace of `PoolCall` events.
-/

namespace Permissible

/-! ## Permission evaluator (`permissible/permissions.py`) -/

/-- `Action`: ALLOW or DENY, as in `permissions.py`. -/
inductive Action where
  | ALLOW
  | DENY
deriving DecidableEq, Repr

/-- `Principal`: a frozen `(method, value)` dataclass.  The Python fields are
typed `Any`; we embed them as strings, which suffices for equality-based
membership tests. -/
structure Principal where
  method : String
  value : String
deriving DecidableEq, Repr

/-- `Permission`: a frozen `(action, principal)` dataclass. -/
structure Permission where
  action : Action
  principal : Principal
deriving DecidableEq, Repr

/-- `has_permission(principals, permissions)`: scan the permission list in
order, returning the action of the first permission whose principal is a
member of `principals`; return `DENY` when no permission matches. -/
def has_permission (principals : List Principal) :
    List Permission → Action
  | [] => Action.DENY
  | permission :: rest =>
      if permission.principal ∈ principals then permission.action
      else has_permission principals rest

end Permissible

namespace Permissible

/-- First-match reading of the scan: the first permission (in list order)
whose principal the caller holds. -/
def firstMatch (principals : List Principal) (permissions : List Permission) :
    Option Permission :=
  permissions.find? (fun permission => permission.principal ∈ principals)

theorem has_permission_eq_firstMatch (principals : List Principal)
    (permissions : List Permission) :
    has_permission principals permissions =
      match firstMatch principals permissions with
      | some permission => permission.action
      | none => Action.DENY := by
  induction permissions with
  | nil => rfl
  | cons p rest ih =>
      by_cases h : p.principal ∈ principals
      · simp [has_permission, firstMatch, List.find?, h]
      · simpa [has_permission, firstMatch, List.find?, h] using ih

end Permissible

namespace Permissible.Core

/-! ## Session / Transaction coordinator (`permissible/core.py`) -/

/-- Abstract view of one `BaseSession` held by a `Transaction`.  `commitFails`
records whether this session's `commit()` raises (sessions with external
write effects, such as the job-queue session, may legitimately fail at
commit). -/
structure AbsSession where
  id : Nat
  committed : Bool
  rolledBack : Bool
  commitFails : Bool
deriving DecidableEq, Repr

/-- A call made by the coordinator to a held session. -/
inductive SessionCall where
  | commit (id : Nat)
  | rollback (id : Nat)
deriving DecidableEq, Repr

/-- `session.commit()` on the abstract session: raises (carrying the
session's id) when `commitFails`, otherwise marks the session committed. -/
def commitSession (s : AbsSession) : Except Nat AbsSession :=
  if s.commitFails then Except.error s.id
  else Except.ok { s with committed := true }

/-- `Transaction.commit`: `for session in self.sessions.values():
session.commit()`.  Python dicts iterate in insertion order, so the held
sessions are committed in insertion order; the first raising commit
propagates out of the loop.  Returns the updated sessions, the ordered trace
of calls issued, and the propagated error (the failing session's id), if
any.  No rollback is ever issued here. -/
def Transaction.commitAll :
    List AbsSession → List AbsSession × List SessionCall × Option Nat
  | [] => ([], [], none)
  | s :: rest =>
    match commitSession s with
    | Except.error e => (s :: rest, [SessionCall.commit s.id], some e)
    | Except.ok s' =>
        let (rest', trace, err) := Transaction.commitAll rest
        (s' :: rest', SessionCall.commit s.id :: trace, err)

/-- `transaction_manager()`, the context manager used by the dispatcher when
the caller supplies no transaction:

`try: t = Transaction(); yield t` — the body runs, possibly raising —
`except Exception as e: t.rollback(e)` — which calls `rollback()` on every
held session and then re-raises `e` — and `finally: t.commit()` — which runs
unconditionally, on the error path as well, committing every held session
after they were rolled back.

Sessions are abstracted to their ids, with their `commit`/`rollback` assumed
not to raise; `sessions` are the sessions the body registered in the
transaction and `bodyError` the exception the body raised, if any.  Returns
the ordered session-call trace and the exception propagated to the caller. -/
def transaction_manager_run (sessions : List Nat) (bodyError : Option String) :
    List SessionCall × Option String :=
  match bodyError with
  | none => (sessions.map SessionCall.commit, none)
  | some e =>
      (sessions.map SessionCall.rollback ++ sessions.map SessionCall.commit,
       some e)

/-- The ad-hoc-transaction path of the access closure built by
`Resource._register_access` for static permission rules: when the caller
supplies no transaction, the backend call runs inside
`with transaction_manager() as transaction`.  `backendResult` abstracts the
backend call (its output or the exception it raises) and `sessions` the
sessions it registers in the ad-hoc transaction. -/
def access_adhoc (permitted : Bool) (sessions : List Nat)
    (backendResult : Except String Nat) :
    List SessionCall × Except String Nat :=
  if permitted then
    match backendResult with
    | Except.ok v =>
        let (trace, _) := transaction_manager_run sessions none
        (trace, Except.ok v)
    | Except.error e =>
        let (trace, err) := transaction_manager_run sessions (some e)
        (trace, Except.error (err.getD e))
  else ([], Except.error "UnauthorisedError")

/-! ## Resource dispatch (`Resource.__call__`) -/

/-- Errors arising from the dispatch-table lookup in `Resource.__call__`.
`keyError` models the Python `KeyError` raised by the name lookup — the
error the spec's taxonomy labels `NotFound` for an absent access
name/type. -/
inductive DispatchError where
  | keyError (key : String)
deriving DecidableEq, Repr

/-- `Resource.__call__(type_, name, ...)` evaluates
`self._access_methods[type_][name]` and only then invokes the handler found
there.  `_access_methods` is a `defaultdict(dict)`: a missing access type
yields an empty inner dict, and the missing name then raises `KeyError`.
Handlers are abstracted to ids; the second component lists the handlers
actually invoked. -/
def Resource.call (methods : List (String × List (String × Nat)))
    (type_ name : String) : Except DispatchError Nat × List Nat :=
  match ((methods.lookup type_).getD []).lookup name with
  | none => (Except.error (DispatchError.keyError name), [])
  | some h => (Except.ok h, [h])

/-! ## Sharing of `Transaction.sessions` across instances -/

/-- Heap snapshot for `Transaction` objects.  The class body
`sessions: Dict[str, BaseSession] = {}` allocates a single dict object —
reference `0` here — once, at class-definition time; it is a class
attribute, never re-assigned.  `dicts` is the heap of dict objects (session
values abstracted to ids) and `instances` the per-instance attribute
dictionaries of the constructed `Transaction` objects. -/
structure PyState where
  dicts : Nat → List (String × Nat)
  instances : List (List (String × Nat))

/-- The class attribute table of `Transaction`: `sessions` refers to the
dict object allocated at class-definition time. -/
def transactionClassAttrs : List (String × Nat) := [("sessions", 0)]

/-- Python attribute lookup on a `Transaction` instance: the instance
dictionary first, then the class attribute table. -/
def lookupAttr (st : PyState) (t : Nat) (name : String) : Option Nat :=
  match (st.instances.getD t []).lookup name with
  | some r => some r
  | none => transactionClassAttrs.lookup name

/-- `Transaction()`: the class defines no `__init__`, so construction
allocates a fresh instance with an empty instance dictionary and performs no
write to any dict. -/
def Transaction.new (st : PyState) : PyState × Nat :=
  ({ st with instances := st.instances ++ [[]] }, st.instances.length)

/-- In-place update of one key of a Python dict (insertion order kept, the
first matching key overwritten). -/
def assocSet (d : List (String × Nat)) (k : String) (v : Nat) :
    List (String × Nat) :=
  match d with
  | [] => [(k, v)]
  | (k', v') :: rest =>
      if k' = k then (k, v) :: rest else (k', v') :: assocSet rest k v

/-- `Transaction.__setitem__`: `self.sessions[key] = session` — attribute
lookup of `sessions` (falling through to the class attribute) followed by an
in-place item assignment on the dict object it refers to. -/
def Transaction.setitem (st : PyState) (t : Nat) (k : String) (v : Nat) :
    PyState :=
  match lookupAttr st t "sessions" with
  | some r =>
      { st with
        dicts := fun r' => if r' = r then assocSet (st.dicts r) k v
                           else st.dicts r' }
  | none => st

/-- `Transaction.__getitem__`: `return self.sessions[key]` (a missing key
would raise `KeyError`, modelled as `none`). -/
def Transaction.getitem (st : PyState) (t : Nat) (k : String) : Option Nat :=
  match lookupAttr st t "sessions" with
  | some r => (st.dicts r).lookup k
  | none => none

/-- Invariant of every reachable heap: `Transaction` has no `__init__` and
no attribute assignment anywhere in the code base, so no instance ever
acquires an instance attribute. -/
def WFState (st : PyState) : Prop :=
  ∀ d ∈ st.instances, d = []

end Permissible.Core

namespace Permissible.Core

theorem lookup_assocSet_self (d : List (String × Nat)) (k : String) (v : Nat) :
    (assocSet d k v).lookup k = some v := by
  induction d with
  | nil => simp [assocSet, List.lookup]
  | cons kv rest ih =>
      obtain ⟨k', v'⟩ := kv
      by_cases h : k' = k
      · simp [assocSet, h, List.lookup]
      · simp only [assocSet, if_neg h, List.lookup]
        have : (k == k') = false := by
          simp [beq_iff_eq]
          exact fun hk => h hk.symm
        simp [this, ih]

theorem wf_instance_empty {st : PyState} (hwf : WFState st) (t : Nat) :
    st.instances.getD t [] = [] := by
  rw [List.getD_eq_getElem?_getD]
  rcases h : st.instances[t]? with _ | d
  · rfl
  · obtain ⟨hlt, hget⟩ := List.getElem?_eq_some_iff.mp h
    have hd : d ∈ st.instances := hget ▸ List.getElem_mem hlt
    simp [hwf d hd]

theorem lookupAttr_sessions {st : PyState} (hwf : WFState st) (t : Nat) :
    lookupAttr st t "sessions" = some 0 := by
  rw [lookupAttr, wf_instance_empty hwf]
  rfl

end Permissible.Core

/-- **C5**: `Transaction.commit()` calls `commit()` on every held session in
insertion order; when a later session's commit raises, the sessions already
committed stay committed, no rollback call is issued, and the failure
propagates (carrying the failing session).  Stated over any split
`pre ++ f :: post` of the held sessions where the sessions before `f` commit
cleanly and `f`'s commit raises: the result marks exactly the sessions
before `f` committed, leaves `f` and the later sessions untouched, the trace
is the commit calls on `pre` then `f` in order (no rollback events), and the
error is `f`'s id. -/
theorem C5_commit_insertion_order_no_rollback
    (pre post : List Permissible.Core.AbsSession)
    (f : Permissible.Core.AbsSession)
    (hpre : ∀ s ∈ pre, s.commitFails = false)
    (hf : f.commitFails = true) :
    Permissible.Core.Transaction.commitAll (pre ++ f :: post) =
      (pre.map (fun s => { s with committed := true }) ++ f :: post,
       (pre ++ [f]).map (fun s => Permissible.Core.SessionCall.commit s.id),
       some f.id) := by
  induction pre with
  | nil =>
      simp [Permissible.Core.Transaction.commitAll,
            Permissible.Core.commitSession, hf]
  | cons s rest ih =>
      have hs : s.commitFails = false := hpre s (by simp)
      have hrest : ∀ x ∈ rest, x.commitFails = false :=
        fun x hx => hpre x (by simp [hx])
      simp [Permissible.Core.Transaction.commitAll,
            Permissible.Core.commitSession, hs, ih hrest]

/-- Witness for C5 at a concrete transaction of three sessions whose middle
session's commit raises. -/
theorem C5_commit_insertion_order_no_rollback_witness :
    Permissible.Core.Transaction.commitAll
      [⟨0, false, false, false⟩, ⟨1, false, false, true⟩,
       ⟨2, false, false, false⟩] =
      ([⟨0, true, false, false⟩, ⟨1, false, false, true⟩,
        ⟨2, false, false, false⟩],
       [Permissible.Core.SessionCall.commit 0,
        Permissible.Core.SessionCall.commit 1], some 1) := by
  have h := C5_commit_insertion_order_no_rollback
    [⟨0, false, false, false⟩] [⟨2, false, false, false⟩]
    ⟨1, false, false, true⟩ (by decide) rfl
  simpa using h

/-- **C2** (code bug): the spec requires that an ad-hoc invocation whose
body raises leaves the auto-opened transaction rolled back and *not*
committed, but `transaction_manager` runs `t.commit()` in a `finally`
block, so commit is issued even on the error path, right after the
rollback.  Evaluated at a dispatcher invocation without a caller-supplied
transaction whose backend call raises, with one session registered: the
session-call trace contains a commit call after the rollback call while the
error still propagates; the normal-exit path commits as specified. -/
theorem C2_adhoc_commit_also_on_error_path :
    Permissible.Core.access_adhoc true [0] (Except.error "backend failure") =
      ([Permissible.Core.SessionCall.rollback 0,
        Permissible.Core.SessionCall.commit 0],
       Except.error "backend failure") ∧
    Permissible.Core.access_adhoc true [0] (Except.ok 7) =
      ([Permissible.Core.SessionCall.commit 0], Except.ok 7) :=
  ⟨rfl, rfl⟩

/-- **C9**: invoking the resource dispatcher with an access-type/name pair
for which no access was registered fails — the table lookup raises the
key-lookup error the spec's taxonomy calls `NotFound` — and invokes no
handler (no backend call is made). -/
theorem C9_unregistered_access_not_found
    (methods : List (String × List (String × Nat))) (type_ name : String)
    (habs : ((methods.lookup type_).getD []).lookup name = none) :
    Permissible.Core.Resource.call methods type_ name =
      (Except.error (Permissible.Core.DispatchError.keyError name), []) := by
  simp [Permissible.Core.Resource.call, habs]

/-- Witness for C9: a registry holding only a `read` access under type
`crud`, invoked at the unregistered name `update`. -/
theorem C9_unregistered_access_not_found_witness :
    Permissible.Core.Resource.call [("crud", [("read", 5)])] "crud" "update" =
      (Except.error (Permissible.Core.DispatchError.keyError "update"), []) :=
  C9_unregistered_access_not_found [("crud", [("read", 5)])] "crud" "update"
    (by decide)

/-- **C10**: `Transaction.sessions` is a class attribute initialised once at
class-definition time and never shadowed by an instance attribute, so the
session mapping is shared across all `Transaction` objects: storing
`t1[k] = s` makes `t2[k]` read back `s` for every other instance `t2`, and a
newly constructed `Transaction()` already contains every session previously
stored through any other instance (its reads coincide with theirs) rather
than starting empty. -/
theorem C10_sessions_shared_across_transactions
    (st : Permissible.Core.PyState) (t1 t2 : Nat) (k : String) (v : Nat)
    (hwf : Permissible.Core.WFState st) :
    Permissible.Core.Transaction.getitem
        (Permissible.Core.Transaction.setitem st t1 k v) t2 k = some v ∧
    (∀ k', Permissible.Core.Transaction.getitem
        (Permissible.Core.Transaction.new st).1
        (Permissible.Core.Transaction.new st).2 k' =
      Permissible.Core.Transaction.getitem st t1 k') := by
  have hset : Permissible.Core.WFState
      (Permissible.Core.Transaction.setitem st t1 k v) := by
    intro d hd
    rw [Permissible.Core.Transaction.setitem,
        Permissible.Core.lookupAttr_sessions hwf] at hd
    exact hwf d hd
  have hnew : Permissible.Core.WFState
      (Permissible.Core.Transaction.new st).1 := by
    intro d hd
    rw [Permissible.Core.Transaction.new] at hd
    simp only [List.mem_append, List.mem_singleton] at hd
    rcases hd with hd | hd
    · exact hwf d hd
    · exact hd
  constructor
  · rw [Permissible.Core.Transaction.getitem,
        Permissible.Core.lookupAttr_sessions hset,
        Permissible.Core.Transaction.setitem,
        Permissible.Core.lookupAttr_sessions hwf]
    simp [Permissible.Core.lookup_assocSet_self]
  · intro k'
    rw [Permissible.Core.Transaction.getitem,
        Permissible.Core.lookupAttr_sessions hnew,
        Permissible.Core.Transaction.getitem,
        Permissible.Core.lookupAttr_sessions hwf]
    rfl

/-- Witness for C10 at a concrete heap: two constructed transactions, a
store through the first read back through the second, and a third, newly
constructed transaction seeing the stored session. -/
theorem C10_sessions_shared_across_transactions_witness :
    Permissible.Core.Transaction.getitem
        (Permissible.Core.Transaction.setitem
          ⟨fun _ => [], [[], []]⟩ 0 "ARQBackend" 3) 1 "ARQBackend" =
      some 3 := by
  have h := C10_sessions_shared_across_transactions
    ⟨fun _ => [], [[], []]⟩ 0 1 "ARQBackend" 3 (by intro d hd; simpa using hd)
  exact h.1

namespace Permissible.Arq

/-! ## Deferred job-queue session (`permissible/crud/backends/arq.py`)

`datetime`/`timedelta` values are embedded as integers (milliseconds), the
`Any`-typed values as strings, and every call to the external queue service
as a `PoolCall` event in an explicit trace. -/

/-- `CreateSchema`: the create parameters buffered by the session. -/
structure CreateSchema where
  function : String
  function_args : List (String × String)
  job_id : Option String
  queue_name : Option String
  defer_until : Option Int
  defer_by : Option Int
  expires : Option Int
  job_try : Option Int
deriving DecidableEq, Repr

/-- `JobPromiseModel`: descriptor of a buffered, not-yet-enqueued job. -/
structure JobPromiseModel where
  function : String
  job_id : String
  status : String
deriving DecidableEq, Repr

/-- `JobDefModel`: descriptor of a job observed in the pending queue. -/
structure JobDefModel where
  function : String
  job_id : String
  status : String
  job_try : Option Int
  enqueue_time : Int
  score : Option Int
deriving DecidableEq, Repr

/-- `JobResultModel`: descriptor of a job with a completed-result record. -/
structure JobResultModel where
  function : String
  job_id : String
  status : String
  job_try : Option Int
  enqueue_time : Int
  score : Option Int
  success : Bool
  result : String
  start_time : Int
  finish_time : Int
  queue_name : String
deriving DecidableEq, Repr

/-- `JobModel`: the tagged union of descriptor shapes a query can return. -/
inductive JobModel where
  | promise (m : JobPromiseModel)
  | defn (m : JobDefModel)
  | result (m : JobResultModel)
deriving DecidableEq, Repr

/-- arq's `JobDef` record (the fields the session reads), as deserialized
from the `arq:job:` key of the external queue. -/
structure JobDefData where
  function : String
  job_try : Option Int
  enqueue_time : Int
  score : Option Int
deriving DecidableEq, Repr

/-- arq's `JobResult` record, as returned by `pool.all_job_results()`. -/
structure JobResultData where
  function : String
  job_try : Option Int
  enqueue_time : Int
  score : Option Int
  success : Bool
  result : String
  start_time : Int
  finish_time : Int
  queue_name : String
  job_id : String
deriving DecidableEq, Repr

/-- Observable state of the external queue service: completed-result records
keyed by job id (`arq:result:`), in-progress markers (`arq:in-progress:`),
serialized job definitions (`arq:job:`), the per-queue sorted-set scores
(keyed by queue name and job id), and the `arq:abort` sorted set recording
abort requests. -/
structure PoolState where
  results : List (String × JobResultData)
  in_progress : List String
  jobs : List (String × JobDefData)
  scores : List ((String × String) × Int)
  abort : List (String × Int)
  default_queue_name : String
deriving DecidableEq, Repr

/-- One call issued to the external queue service. -/
inductive PoolCall where
  | allJobResults
  | existsKey (key : String)
  | getKey (key : String)
  | zscore (queue member : String)
  | zadd (key : String) (score : Int) (member : String)
  | enqueue (c : CreateSchema)
deriving DecidableEq, Repr

/-- `pool.exists('arq:result:' + job_id)`. -/
def existsResult (p : PoolState) (job_id : String) : Bool :=
  (p.results.lookup job_id).isSome

/-- `pool.exists('arq:in-progress:' + job_id)`. -/
def existsInProgress (p : PoolState) (job_id : String) : Bool :=
  p.in_progress.contains job_id

/-- `pool.zscore(queue_name, job_id)`. -/
def zscore (p : PoolState) (queue job_id : String) : Option Int :=
  p.scores.lookup (queue, job_id)

/-- `get_status_from_pool(pool, job_id, queue_name)`: `complete` when a
result record exists, else `in_progress` when the marker exists, otherwise
by the pending-queue score — Python's `if not score` treats a missing score
and a score of `0` alike as absent, giving `not_found`; a score strictly
greater than `timestamp_ms()` (here `now`) is `deferred`, else `queued`. -/
def get_status_from_pool (p : PoolState) (job_id queue_name : String)
    (now : Int) : String :=
  if existsResult p job_id then "complete"
  else if existsInProgress p job_id then "in_progress"
  else
    match zscore p queue_name job_id with
    | none => "not_found"
    | some score =>
        if score = 0 then "not_found"
        else if score > now then "deferred" else "queued"

/-- The calls `get_status_from_pool` issues (the `elif`/`else` probes run
only when the earlier probes came back negative). -/
def get_status_trace (p : PoolState) (job_id queue_name : String) :
    List PoolCall :=
  PoolCall.existsKey ("arq:result:" ++ job_id) ::
  (if existsResult p job_id then []
   else
     PoolCall.existsKey ("arq:in-progress:" ++ job_id) ::
     (if existsInProgress p job_id then []
      else [PoolCall.zscore queue_name job_id]))

/-- The live-queue information `get_info_from_pool` can find: a full result
record or a bare job definition. -/
inductive PoolInfo where
  | res (r : JobResultData)
  | defn (d : JobDefData)
deriving DecidableEq, Repr

/-- `info.score = await pool.zscore(queue_name, job_id)`. -/
def PoolInfo.setScore : PoolInfo → Option Int → PoolInfo
  | PoolInfo.res r, s => PoolInfo.res { r with score := s }
  | PoolInfo.defn d, s => PoolInfo.defn { d with score := s }

/-- `get_info_from_pool(pool, job_id, queue_name)`: look the job id up in
`pool.all_job_results()`, else deserialize the `arq:job:` key; when found,
overwrite the record's score with the live sorted-set score. -/
def get_info_from_pool (p : PoolState) (job_id queue_name : String) :
    Option PoolInfo × List PoolCall :=
  let info0 : Option PoolInfo :=
    match p.results.lookup job_id with
    | some r => some (PoolInfo.res r)
    | none => none
  let step :=
    match info0 with
    | none =>
        ((match p.jobs.lookup job_id with
          | some d => some (PoolInfo.defn d)
          | none => none),
         [PoolCall.getKey ("arq:job:" ++ job_id)])
    | some i => (some i, ([] : List PoolCall))
  match step.1 with
  | some i =>
      (some (i.setScore (zscore p queue_name job_id)),
       PoolCall.allJobResults :: step.2 ++ [PoolCall.zscore queue_name job_id])
  | none => (none, PoolCall.allJobResults :: step.2)

/-- `abort_in_pool(pool, job_id)`: fetch all job results (the bindings are
unused), record the abort request in the `arq:abort` sorted set, then
immediately re-check: when a result record or in-progress marker exists, the
abort did not take effect.  Returns the updated pool, the calls issued, and
whether the abort took effect.  (Re-adding a member to the abort set — a
set the code only ever writes — is embedded as an append.) -/
def abort_in_pool (p : PoolState) (now : Int) (job_id : String) :
    PoolState × List PoolCall × Bool :=
  let p' : PoolState := { p with abort := p.abort ++ [(job_id, now)] }
  let status : Option String :=
    if existsResult p' job_id then some "complete"
    else if existsInProgress p' job_id then some "in_progress"
    else none
  let abort_complete :=
    !(status == some "in_progress" || status == some "complete")
  (p',
   PoolCall.allJobResults :: PoolCall.zadd "arq:abort" now job_id ::
   PoolCall.existsKey ("arq:result:" ++ job_id) ::
   (if existsResult p' job_id then []
    else [PoolCall.existsKey ("arq:in-progress:" ++ job_id)]),
   abort_complete)

/-- Modelled from the spec: `pool.enqueue_job(...)` — the enqueue call of
the external queue service (the arq library, which is not part of this
repository).  Per the spec's queue-service boundary it registers the job
definition and its schedule score under the job id; enqueueing an id that is
already known (job or result record present) is a no-op rather than an
error, and the call itself does not raise.  The session always buffers an
id assigned by the backend, so the generate-an-id-when-absent path is
embedded as a no-op. -/
def pool_enqueue_job (p : PoolState) (now : Int) (c : CreateSchema) :
    PoolState :=
  match c.job_id with
  | none => p
  | some j =>
      if (p.jobs.lookup j).isSome || (p.results.lookup j).isSome then p
      else
        let queue := c.queue_name.getD p.default_queue_name
        let score := c.defer_until.getD (now + c.defer_by.getD 0)
        { p with
          jobs := p.jobs ++ [(j, ⟨c.function, c.job_try, now, none⟩)],
          scores := p.scores ++ [((queue, j), score)] }

/-- A buffered job intent: `Add(create_model)` or `Delete(job_id)`. -/
inductive Op where
  | Add (create_model : CreateSchema)
  | Delete (job_id : String)
deriving DecidableEq, Repr

/-- `ARQSession.operations`: a Python dict from job id (the schema's
`job_id` field, possibly `None`) to the ordered list of buffered intents,
embedded as an insertion-ordered association list. -/
structure ARQSession where
  operations : List (Option String × List Op)
deriving DecidableEq, Repr

/-- Append an intent under a key of the operations dict: extend the existing
entry in place, or insert a new key at the end (Python dict insertion
order). -/
def opsAppend (ops : List (Option String × List Op)) (k : Option String)
    (op : Op) : List (Option String × List Op) :=
  match ops with
  | [] => [(k, [op])]
  | (k', l) :: rest =>
      if k' = k then (k', l ++ [op]) :: rest
      else (k', l) :: opsAppend rest k op

/-- `ARQSession.add(job_create)`: buffer an `Add` intent under the create
model's job id and return a `Promise` descriptor (status `"promise"`)
without touching the external queue.  Building the `JobPromiseModel` with a
`None` job id raises a validation error (after the intent was buffered). -/
def ARQSession.add (s : ARQSession) (job_create : CreateSchema) :
    ARQSession × Except String JobPromiseModel :=
  let s' : ARQSession :=
    ⟨opsAppend s.operations job_create.job_id (Op.Add job_create)⟩
  match job_create.job_id with
  | some j => (s', Except.ok ⟨job_create.function, j, "promise"⟩)
  | none => (s', Except.error "ValidationError")

/-- `ARQSession.delete(job_id)`: buffer a `Delete` intent under the job id;
no existence check and no external call. -/
def ARQSession.delete (s : ARQSession) (job_id : String) : ARQSession :=
  ⟨opsAppend s.operations (some job_id) (Op.Delete job_id)⟩

/-- `ARQSession.query(job_id, queue_name=None)`: consult the buffered
intents first — a last `Add` yields a `Promise` descriptor built from the
buffered create parameters; a last `Delete` sets the `...` sentinel, which
skips the live-queue read (`info is None` is false) and afterwards becomes
`None`.  Only when the job id has no buffered intents does the session read
the live queue and shape the observed information into a `JobResultModel`
or `JobDefModel` carrying the observed status.  Returns the descriptor (or
`none`) and the pool calls issued.  (A buffered entry's intent list is
never empty — `add`/`delete` only ever append — so the `[-1]` indexing
cannot fail; the unreachable empty case is mapped to `none`.) -/
def ARQSession.query (s : ARQSession) (p : PoolState) (now : Int)
    (job_id : String) (queue_name : Option String) :
    Option JobModel × List PoolCall :=
  let qn := queue_name.getD p.default_queue_name
  match s.operations.lookup (some job_id) with
  | some l =>
      match l.getLast? with
      | some (Op.Add c) =>
          (some (JobModel.promise ⟨c.function, job_id, "promise"⟩), [])
      | some (Op.Delete _) => (none, [])
      | none => (none, [])
  | none =>
      let (info, trace1) := get_info_from_pool p job_id qn
      let status := get_status_from_pool p job_id qn now
      let trace := trace1 ++ get_status_trace p job_id qn
      match info with
      | some (PoolInfo.res r) =>
          (some (JobModel.result
            ⟨r.function, job_id, status, r.job_try, r.enqueue_time, r.score,
             r.success, r.result, r.start_time, r.finish_time,
             r.queue_name⟩), trace)
      | some (PoolInfo.defn d) =>
          (some (JobModel.defn
            ⟨d.function, job_id, status, d.job_try, d.enqueue_time,
             d.score⟩), trace)
      | none => (none, trace)

/-- Replay of one job id's buffered intents at commit (`for operation in
operations:`): each `Add` issues the external enqueue with the buffered
create parameters; each `Delete` runs `abort_in_pool` and raises
`ArqSessionAbortFailure` carrying the job id when the abort did not take
effect, halting the replay. -/
def runOps (p : PoolState) (now : Int) :
    List Op → PoolState × List PoolCall × Option String
  | [] => (p, [], none)
  | Op.Add c :: rest =>
      let p' := pool_enqueue_job p now c
      let r := runOps p' now rest
      (r.1, PoolCall.enqueue c :: r.2.1, r.2.2)
  | Op.Delete j :: rest =>
      let a := abort_in_pool p now j
      if a.2.2 then
        let r := runOps a.1 now rest
        (r.1, a.2.1 ++ r.2.1, r.2.2)
      else (a.1, a.2.1, some j)

/-- Replay of the whole buffer (`for job_id, operations in
self.operations.items():`), entries in insertion order; the first abort
failure propagates, halting the outer loop as well. -/
def runEntries (p : PoolState) (now : Int) :
    List (Option String × List Op) →
    PoolState × List PoolCall × Option String
  | [] => (p, [], none)
  | (_, l) :: rest =>
      let r := runOps p now l
      match r.2.2 with
      | some j => (r.1, r.2.1, some j)
      | none =>
          let r' := runEntries r.1 now rest
          (r'.1, r.2.1 ++ r'.2.1, r'.2.2)

/-- `ARQSession.commit()`: replay every buffered intent against the external
queue.  On an abort failure the exception propagates and `self.operations`
is left untouched — the clearing assignment `self.operations = {}` is only
reached after a fully successful replay.  Returns the session, the updated
pool, the calls issued, and the abort failure's job id, if any. -/
def ARQSession.commit (s : ARQSession) (p : PoolState) (now : Int) :
    ARQSession × PoolState × List PoolCall × Option String :=
  let r := runEntries p now s.operations
  match r.2.2 with
  | some j => (s, r.1, r.2.1, some j)
  | none => (⟨[]⟩, r.1, r.2.1, none)

/-- `ARQSession.close()`: `self.operations = {}` — discard the buffer; no
external call is made. -/
def ARQSession.close (_s : ARQSession) : ARQSession × List PoolCall :=
  (⟨[]⟩, [])

/-- `ARQSession.rollback()`: `ARQSession` does not override `rollback`, so
the inherited `BaseSession.rollback` runs, raising `NotImplementedError`;
the buffer is left as it is and no external call is made.  Returns the
(unchanged) session, the (empty) call trace, and the raised error. -/
def ARQSession.rollback (s : ARQSession) :
    ARQSession × List PoolCall × Option String :=
  (s, [], some "NotImplementedError")

/-- `ARQSession.remove_operations(job_id)`: `self.operations.pop(job_id)` —
drop the entry for the job id, raising `KeyError` when it is absent. -/
def ARQSession.remove_operations (s : ARQSession) (job_id : String) :
    Except String ARQSession :=
  if (s.operations.lookup (some job_id)).isSome then
    Except.ok ⟨s.operations.filter (fun e => !(e.1 == some job_id))⟩
  else Except.error "KeyError"

/-- Error kinds raised by the ARQ backend handlers. -/
inductive ArqError where
  | poolJobNotFound
  | poolJobCompleted
deriving DecidableEq, Repr

/-- The `status` attribute of a queried descriptor (every descriptor model
carries a `status` field, so Python's `hasattr(result, 'status')` is always
true on a query result). -/
def JobModel.status : JobModel → String
  | JobModel.promise m => m.status
  | JobModel.defn m => m.status
  | JobModel.result m => m.status

/-- The `delete` handler `ARQBackend` registers: query first; raise
`PoolJobNotFound` when the merged result is absent; raise
`PoolJobCompleted` when the observed status is `complete` or `in_progress`
(buffering nothing); otherwise buffer a `Delete` intent through
`session.delete` and return the queried descriptor. -/
def ARQBackend.delete (s : ARQSession) (p : PoolState) (now : Int)
    (job_id : String) : ARQSession × Except ArqError JobModel :=
  match (s.query p now job_id none).1 with
  | none => (s, Except.error ArqError.poolJobNotFound)
  | some m =>
      if m.status = "complete" ∨ m.status = "in_progress" then
        (s, Except.error ArqError.poolJobCompleted)
      else (s.delete job_id, Except.ok m)

/-- The abort of `job_id` takes effect exactly when the job has neither a
completed-result record nor an in-progress marker. -/
def abortTakesEffect (p : PoolState) (job_id : String) : Bool :=
  !(existsResult p job_id || existsInProgress p job_id)

end Permissible.Arq

namespace Permissible.Arq

theorem lookup_opsAppend_self (ops : List (Option String × List Op))
    (k : Option String) (op : Op) :
    (opsAppend ops k op).lookup k =
      some (((ops.lookup k).getD []) ++ [op]) := by
  induction ops with
  | nil => simp [opsAppend, List.lookup]
  | cons e rest ih =>
      obtain ⟨k', l⟩ := e
      by_cases h : k' = k
      · subst h
        simp [opsAppend, List.lookup]
      · have hbeq : (k == k') = false :=
          beq_eq_false_iff_ne.mpr (fun hk => h hk.symm)
        simp [opsAppend, h, List.lookup, hbeq, ih]

theorem lookup_opsAppend_ne (ops : List (Option String × List Op))
    (k k' : Option String) (op : Op) (h : k' ≠ k) :
    (opsAppend ops k op).lookup k' = ops.lookup k' := by
  induction ops with
  | nil =>
      have hbeq : (k' == k) = false := beq_eq_false_iff_ne.mpr h
      simp [opsAppend, List.lookup, hbeq]
  | cons e rest ih =>
      obtain ⟨k'', l⟩ := e
      by_cases hk : k'' = k
      · subst hk
        have hbeq : (k' == k'') = false := beq_eq_false_iff_ne.mpr h
        simp [opsAppend, List.lookup, hbeq]
      · by_cases hk' : k' = k''
        · subst hk'
          simp [opsAppend, hk, List.lookup]
        · have hbeq : (k' == k'') = false := beq_eq_false_iff_ne.mpr hk'
          simp [opsAppend, hk, List.lookup, hbeq, ih]

theorem existsResult_update_abort (p : PoolState) (a : List (String × Int))
    (j : String) : existsResult { p with abort := a } j = existsResult p j :=
  rfl

theorem existsInProgress_update_abort (p : PoolState)
    (a : List (String × Int)) (j : String) :
    existsInProgress { p with abort := a } j = existsInProgress p j := rfl

theorem abort_in_pool_spec (p : PoolState) (now : Int) (j : String) :
    (abort_in_pool p now j).1.results = p.results ∧
    (abort_in_pool p now j).1.in_progress = p.in_progress ∧
    (abort_in_pool p now j).2.2 = abortTakesEffect p j := by
  refine ⟨rfl, rfl, ?_⟩
  cases hr : existsResult p j <;> cases hi : existsInProgress p j <;>
    simp [abort_in_pool, abortTakesEffect, existsResult_update_abort,
          existsInProgress_update_abort, hr, hi]

theorem enqueue_fields (p : PoolState) (now : Int) (c : CreateSchema) :
    (pool_enqueue_job p now c).results = p.results ∧
    (pool_enqueue_job p now c).in_progress = p.in_progress := by
  unfold pool_enqueue_job
  cases c.job_id with
  | none => exact ⟨rfl, rfl⟩
  | some j =>
      by_cases h : ((p.jobs.lookup j).isSome || (p.results.lookup j).isSome) <;>
        simp [h]

theorem abortTakesEffect_congr {p q : PoolState}
    (hres : q.results = p.results) (hip : q.in_progress = p.in_progress)
    (j : String) : abortTakesEffect q j = abortTakesEffect p j := by
  simp [abortTakesEffect, existsResult, existsInProgress, hres, hip]

theorem runOps_fields (now : Int) (l : List Op) : ∀ p : PoolState,
    (runOps p now l).1.results = p.results ∧
    (runOps p now l).1.in_progress = p.in_progress := by
  induction l with
  | nil => intro p; exact ⟨rfl, rfl⟩
  | cons op rest ih =>
      intro p
      cases op with
      | Add c =>
          have he := enqueue_fields p now c
          have hr := ih (pool_enqueue_job p now c)
          simp only [runOps]
          exact ⟨hr.1.trans he.1, hr.2.trans he.2⟩
      | Delete j =>
          have ha := abort_in_pool_spec p now j
          by_cases hok : (abort_in_pool p now j).2.2 = true
          · have hr := ih (abort_in_pool p now j).1
            simp only [runOps, hok, if_true]
            exact ⟨hr.1.trans ha.1, hr.2.trans ha.2.1⟩
          · rw [Bool.not_eq_true] at hok
            simp only [runOps, hok, Bool.false_eq_true, if_false]
            exact ⟨ha.1, ha.2.1⟩

theorem runEntries_fields (now : Int)
    (entries : List (Option String × List Op)) : ∀ p : PoolState,
    (runEntries p now entries).1.results = p.results ∧
    (runEntries p now entries).1.in_progress = p.in_progress := by
  induction entries with
  | nil => intro p; exact ⟨rfl, rfl⟩
  | cons e rest ih =>
      intro p
      obtain ⟨k, l⟩ := e
      have hops := runOps_fields now l p
      rcases herr : (runOps p now l).2.2 with _ | j
      · have hr := ih (runOps p now l).1
        simp only [runEntries, herr]
        exact ⟨hr.1.trans hops.1, hr.2.trans hops.2⟩
      · simp only [runEntries, herr]
        exact ⟨hops.1, hops.2⟩

theorem runOps_err_none (now : Int) (l : List Op) : ∀ p : PoolState,
    (∀ j, Op.Delete j ∈ l → abortTakesEffect p j = true) →
    (runOps p now l).2.2 = none := by
  induction l with
  | nil => intro p _; rfl
  | cons op rest ih =>
      intro p h
      cases op with
      | Add c =>
          have he := enqueue_fields p now c
          have hrest : ∀ j, Op.Delete j ∈ rest →
              abortTakesEffect (pool_enqueue_job p now c) j = true := by
            intro j hj
            rw [abortTakesEffect_congr he.1 he.2]
            exact h j (by simp [hj])
          simp only [runOps]
          exact ih _ hrest
      | Delete j =>
          have ha := abort_in_pool_spec p now j
          have hok : (abort_in_pool p now j).2.2 = true :=
            ha.2.2.trans (h j (by simp))
          have hrest : ∀ j', Op.Delete j' ∈ rest →
              abortTakesEffect (abort_in_pool p now j).1 j' = true := by
            intro j' hj'
            rw [abortTakesEffect_congr ha.1 ha.2.1]
            exact h j' (by simp [hj'])
          simp only [runOps, hok, if_true]
          exact ih _ hrest

theorem runOps_err_fail (now : Int) (f : String) (l : List Op) :
    ∀ p : PoolState,
    (∀ j, Op.Delete j ∈ l → j = f) →
    abortTakesEffect p f = false →
    (∃ j, Op.Delete j ∈ l) →
    (runOps p now l).2.2 = some f := by
  induction l with
  | nil =>
      intro p _ _ hex
      rcases hex with ⟨j, hj⟩
      cases hj
  | cons op rest ih =>
      intro p hall hf hex
      cases op with
      | Add c =>
          have hex' : ∃ j, Op.Delete j ∈ rest := by
            rcases hex with ⟨j, hj⟩
            rcases List.mem_cons.mp hj with h1 | h2
            · simp at h1
            · exact ⟨j, h2⟩
          have he := enqueue_fields p now c
          have hf' : abortTakesEffect (pool_enqueue_job p now c) f = false := by
            rw [abortTakesEffect_congr he.1 he.2]; exact hf
          have hall' : ∀ j, Op.Delete j ∈ rest → j = f :=
            fun j hj => hall j (by simp [hj])
          simp only [runOps]
          exact ih _ hall' hf' hex'
      | Delete j =>
          have hj : j = f := hall j (by simp)
          subst hj
          have ha := abort_in_pool_spec p now j
          have hok : (abort_in_pool p now j).2.2 = false := ha.2.2.trans hf
          simp only [runOps, hok, Bool.false_eq_true, if_false]

theorem runOps_trace_mem (now : Int) (l : List Op) : ∀ p : PoolState,
    (∀ j, Op.Delete j ∈ l → abortTakesEffect p j = true) →
    (∀ c, Op.Add c ∈ l → PoolCall.enqueue c ∈ (runOps p now l).2.1) ∧
    (∀ j, Op.Delete j ∈ l →
      PoolCall.zadd "arq:abort" now j ∈ (runOps p now l).2.1) := by
  induction l with
  | nil => intro p _; exact ⟨fun c hc => absurd hc (by simp),
      fun j hj => absurd hj (by simp)⟩
  | cons op rest ih =>
      intro p h
      cases op with
      | Add c =>
          have he := enqueue_fields p now c
          have hrest : ∀ j, Op.Delete j ∈ rest →
              abortTakesEffect (pool_enqueue_job p now c) j = true := by
            intro j hj
            rw [abortTakesEffect_congr he.1 he.2]
            exact h j (by simp [hj])
          have hihm := ih (pool_enqueue_job p now c) hrest
          constructor
          · intro c' hc'
            rcases List.mem_cons.mp hc' with h1 | h2
            · simp only [runOps]
              have : c' = c := by injection h1
              simp [this]
            · simp only [runOps, List.mem_cons]
              exact Or.inr (hihm.1 c' h2)
          · intro j hj
            rcases List.mem_cons.mp hj with h1 | h2
            · simp at h1
            · simp only [runOps, List.mem_cons]
              exact Or.inr (hihm.2 j h2)
      | Delete j =>
          have ha := abort_in_pool_spec p now j
          have hok : (abort_in_pool p now j).2.2 = true :=
            ha.2.2.trans (h j (by simp))
          have hrest : ∀ j', Op.Delete j' ∈ rest →
              abortTakesEffect (abort_in_pool p now j).1 j' = true := by
            intro j' hj'
            rw [abortTakesEffect_congr ha.1 ha.2.1]
            exact h j' (by simp [hj'])
          have hihm := ih (abort_in_pool p now j).1 hrest
          have hzadd : PoolCall.zadd "arq:abort" now j ∈
              (abort_in_pool p now j).2.1 := by
            simp [abort_in_pool]
          constructor
          · intro c' hc'
            rcases List.mem_cons.mp hc' with h1 | h2
            · simp at h1
            · simp only [runOps, hok, if_true, List.mem_append]
              exact Or.inr (hihm.1 c' h2)
          · intro j' hj'
            rcases List.mem_cons.mp hj' with h1 | h2
            · have : j' = j := by injection h1
              subst this
              simp only [runOps, hok, if_true, List.mem_append]
              exact Or.inl hzadd
            · simp only [runOps, hok, if_true, List.mem_append]
              exact Or.inr (hihm.2 j' h2)

theorem runEntries_err_none (now : Int)
    (entries : List (Option String × List Op)) : ∀ p : PoolState,
    (∀ k l j, (k, l) ∈ entries → Op.Delete j ∈ l →
      abortTakesEffect p j = true) →
    (runEntries p now entries).2.2 = none := by
  induction entries with
  | nil => intro p _; rfl
  | cons e rest ih =>
      intro p h
      obtain ⟨k, l⟩ := e
      have hl : (runOps p now l).2.2 = none :=
        runOps_err_none now l p (fun j hj => h k l j (by simp) hj)
      have hfields := runOps_fields now l p
      have hrest : ∀ k' l' j, (k', l') ∈ rest → Op.Delete j ∈ l' →
          abortTakesEffect (runOps p now l).1 j = true := by
        intro k' l' j hm hj
        rw [abortTakesEffect_congr hfields.1 hfields.2]
        exact h k' l' j (by simp [hm]) hj
      simp only [runEntries, hl]
      exact ih _ hrest

theorem runEntries_append (now : Int)
    (xs ys : List (Option String × List Op)) : ∀ p : PoolState,
    (runEntries p now xs).2.2 = none →
    runEntries p now (xs ++ ys) =
      ((runEntries (runEntries p now xs).1 now ys).1,
       (runEntries p now xs).2.1 ++
         (runEntries (runEntries p now xs).1 now ys).2.1,
       (runEntries (runEntries p now xs).1 now ys).2.2) := by
  induction xs with
  | nil => intro p _; simp [runEntries]
  | cons e rest ih =>
      intro p hnone
      obtain ⟨k, l⟩ := e
      rcases herr : (runOps p now l).2.2 with _ | j
      · have hnone' : (runEntries (runOps p now l).1 now rest).2.2 = none := by
          simpa [runEntries, herr] using hnone
        have hih := ih (runOps p now l).1 hnone'
        simp only [List.cons_append, runEntries, herr, List.append_eq,
                   hih, List.append_assoc]
      · exfalso
        simp [runEntries, herr] at hnone

theorem runEntries_trace_mem (now : Int)
    (entries : List (Option String × List Op)) : ∀ p : PoolState,
    (∀ k l j, (k, l) ∈ entries → Op.Delete j ∈ l →
      abortTakesEffect p j = true) →
    (∀ k l c, (k, l) ∈ entries → Op.Add c ∈ l →
      PoolCall.enqueue c ∈ (runEntries p now entries).2.1) ∧
    (∀ k l j, (k, l) ∈ entries → Op.Delete j ∈ l →
      PoolCall.zadd "arq:abort" now j ∈ (runEntries p now entries).2.1) := by
  induction entries with
  | nil =>
      intro p _
      exact ⟨fun k l c hm => absurd hm (by simp),
             fun k l j hm => absurd hm (by simp)⟩
  | cons e rest ih =>
      intro p h
      obtain ⟨k0, l0⟩ := e
      have hl : (runOps p now l0).2.2 = none :=
        runOps_err_none now l0 p (fun j hj => h k0 l0 j (by simp) hj)
      have hfields := runOps_fields now l0 p
      have hrest : ∀ k' l' j, (k', l') ∈ rest → Op.Delete j ∈ l' →
          abortTakesEffect (runOps p now l0).1 j = true := by
        intro k' l' j hm hj
        rw [abortTakesEffect_congr hfields.1 hfields.2]
        exact h k' l' j (by simp [hm]) hj
      have hihm := ih (runOps p now l0).1 hrest
      have hhead := runOps_trace_mem now l0 p
        (fun j hj => h k0 l0 j (by simp) hj)
      constructor
      · intro k l c hm hc
        rcases List.mem_cons.mp hm with h1 | h2
        · obtain ⟨hk, hl'⟩ := Prod.mk.injEq .. ▸ h1
          simp only [runEntries, hl, List.mem_append]
          exact Or.inl (hhead.1 c (hl' ▸ hc))
        · simp only [runEntries, hl, List.mem_append]
          exact Or.inr (hihm.1 k l c h2 hc)
      · intro k l j hm hj
        rcases List.mem_cons.mp hm with h1 | h2
        · obtain ⟨hk, hl'⟩ := Prod.mk.injEq .. ▸ h1
          simp only [runEntries, hl, List.mem_append]
          exact Or.inl (hhead.2 j (hl' ▸ hj))
        · simp only [runEntries, hl, List.mem_append]
          exact Or.inr (hihm.2 k l j h2 hj)

theorem commit_eq_of_err_none (s : ARQSession) (p : PoolState) (now : Int)
    (h : (runEntries p now s.operations).2.2 = none) :
    s.commit p now =
      (⟨[]⟩, (runEntries p now s.operations).1,
       (runEntries p now s.operations).2.1, none) := by
  simp [ARQSession.commit, h]

theorem lookup_append_self_isSome (xs ys : List (Option String × List Op))
    (k : Option String) (v : List Op) :
    ((xs ++ (k, v) :: ys).lookup k).isSome := by
  induction xs with
  | nil => simp [List.lookup]
  | cons e rest ih =>
      obtain ⟨k', v'⟩ := e
      by_cases h : (k == k') = true
      · simp [List.lookup, h]
      · simp only [Bool.not_eq_true] at h
        simp [List.lookup, h, ih]

theorem filter_key_remove (pre post : List (Option String × List Op))
    (f : String) (fops : List Op)
    (hpre : some f ∉ pre.map Prod.fst)
    (hpost : some f ∉ post.map Prod.fst) :
    (pre ++ (some f, fops) :: post).filter
      (fun e => !(e.1 == some f)) = pre ++ post := by
  rw [List.filter_append]
  have h1 : pre.filter (fun e => !(e.1 == some f)) = pre := by
    apply List.filter_eq_self.mpr
    intro a ha
    have : a.1 ≠ some f := fun hk => hpre (hk ▸ List.mem_map_of_mem Prod.fst ha)
    simp [beq_eq_false_iff_ne.mpr this]
  have h2 : ((some f, fops) :: post).filter
      (fun e => !(e.1 == some f)) = post := by
    have h3 : post.filter (fun e => !(e.1 == some f)) = post := by
      apply List.filter_eq_self.mpr
      intro a ha
      have : a.1 ≠ some f :=
        fun hk => hpost (hk ▸ List.mem_map_of_mem Prod.fst ha)
      simp [beq_eq_false_iff_ne.mpr this]
    simp [List.filter, h3]
  rw [h1, h2]

end Permissible.Arq

namespace Permissible.Arq

/-- **C7**: a create buffered through the session and not yet committed:
`add` returns, immediately and without touching the external queue, a
`Promise` descriptor with status `"promise"`, and a subsequent `query` on
that job id before commit returns a `Promise` descriptor carrying the same
job id and function name, issuing no pool call — for every pool state,
hence independent of the external queue. -/
theorem C7_buffered_create_promise
    (s : ARQSession) (c : CreateSchema) (j : String) (hid : c.job_id = some j)
    (p : PoolState) (now : Int) :
    (s.add c).2 = Except.ok ⟨c.function, j, "promise"⟩ ∧
    (s.add c).1.query p now j none =
      (some (JobModel.promise ⟨c.function, j, "promise"⟩), []) := by
  constructor
  · simp [ARQSession.add, hid]
  · have hlook : (s.add c).1.operations.lookup (some j) =
        some (((s.operations.lookup (some j)).getD []) ++ [Op.Add c]) := by
      simp only [ARQSession.add, hid]
      exact lookup_opsAppend_self s.operations (some j) (Op.Add c)
    simp [ARQSession.query, hlook, List.getLast?_concat]

/-- Witness for C7: an empty session buffering a create for job `"abc"`,
queried against an empty pool. -/
theorem C7_buffered_create_promise_witness :
    (ARQSession.add ⟨[]⟩
        ⟨"f", [], some "abc", none, none, none, none, none⟩).2 =
      Except.ok ⟨"f", "abc", "promise"⟩ ∧
    (ARQSession.add ⟨[]⟩
        ⟨"f", [], some "abc", none, none, none, none, none⟩).1.query
      ⟨[], [], [], [], [], "arq:queue"⟩ 0 "abc" none =
      (some (JobModel.promise ⟨"f", "abc", "promise"⟩), []) :=
  C7_buffered_create_promise ⟨[]⟩
    ⟨"f", [], some "abc", none, none, none, none, none⟩ "abc" rfl
    ⟨[], [], [], [], [], "arq:queue"⟩ 0

/-- **C3** counterexample: with the last buffered intent for `"X"` a
`Delete`, `query` returns `none` and issues *no* pool call, even though the
live queue holds a completed-result record for `"X"` — as the second
conjunct shows, an empty-buffer query of the same pool returns a `complete`
descriptor.  The session therefore does not fall through to reading the
live queue state, contradicting the claim. -/
theorem C3_counterexample_delete_no_fallthrough :
    ARQSession.query ⟨[(some "X", [Op.Delete "X"])]⟩
        ⟨[("X", ⟨"f", none, 0, none, true, "r", 0, 1, "arq:queue", "X"⟩)],
         [], [], [], [], "arq:queue"⟩ 1000 "X" none = (none, []) ∧
    (ARQSession.query ⟨[]⟩
        ⟨[("X", ⟨"f", none, 0, none, true, "r", 0, 1, "arq:queue", "X"⟩)],
         [], [], [], [], "arq:queue"⟩ 1000 "X" none).1 =
      some (JobModel.result
        ⟨"f", "X", "complete", none, 0, none, true, "r", 0, 1,
         "arq:queue"⟩) := by
  exact ⟨rfl, rfl⟩

/-- **C3** amended: for every job id whose last buffered intent is a
`Delete`, `query` returns `none` — no information — without issuing any
call to the live queue: the `...` sentinel set by the `Delete` branch skips
the fall-through read and is then turned into `None`. -/
theorem C3_amended_delete_yields_none
    (s : ARQSession) (p : PoolState) (now : Int) (j x : String)
    (qn : Option String) (l : List Op)
    (hl : s.operations.lookup (some j) = some l)
    (hlast : l.getLast? = some (Op.Delete x)) :
    s.query p now j qn = (none, []) := by
  simp [ARQSession.query, hl, hlast]

/-- Witness for C3's amended claim at a concrete session and pool. -/
theorem C3_amended_delete_yields_none_witness :
    ARQSession.query ⟨[(some "X", [Op.Delete "X"])]⟩
      ⟨[], [], [], [], [], "arq:queue"⟩ 5 "X" none = (none, []) :=
  C3_amended_delete_yields_none ⟨[(some "X", [Op.Delete "X"])]⟩
    ⟨[], [], [], [], [], "arq:queue"⟩ 5 "X" "X" none [Op.Delete "X"]
    (by decide) (by decide)

/-- **C6**: the `delete` handler of the job-queue backend branches exactly
as claimed — an absent merged query result raises `PoolJobNotFound` with
nothing buffered; an observed status of `complete` or `in_progress` raises
`PoolJobCompleted` with no `Delete` buffered; otherwise exactly one
`Delete` intent for the job id is appended to the session buffer (the job's
entry grows by exactly that one intent, every other entry unchanged) and
the queried descriptor is returned. -/
theorem C6_delete_handler_branches
    (s : ARQSession) (p : PoolState) (now : Int) (j : String) :
    ((s.query p now j none).1 = none →
      ARQBackend.delete s p now j =
        (s, Except.error ArqError.poolJobNotFound)) ∧
    (∀ m, (s.query p now j none).1 = some m →
      (m.status = "complete" ∨ m.status = "in_progress") →
      ARQBackend.delete s p now j =
        (s, Except.error ArqError.poolJobCompleted)) ∧
    (∀ m, (s.query p now j none).1 = some m →
      ¬(m.status = "complete" ∨ m.status = "in_progress") →
      (ARQBackend.delete s p now j).2 = Except.ok m ∧
      (ARQBackend.delete s p now j).1.operations.lookup (some j) =
        some (((s.operations.lookup (some j)).getD []) ++ [Op.Delete j]) ∧
      ∀ k, k ≠ some j →
        (ARQBackend.delete s p now j).1.operations.lookup k =
          s.operations.lookup k) := by
  refine ⟨?_, ?_, ?_⟩
  · intro h
    simp [ARQBackend.delete, h]
  · intro m hm hst
    simp [ARQBackend.delete, hm, hst]
  · intro m hm hst
    refine ⟨by simp [ARQBackend.delete, hm, hst], ?_, ?_⟩
    · simp only [ARQBackend.delete, hm, if_neg hst, ARQSession.delete]
      exact lookup_opsAppend_self s.operations (some j) (Op.Delete j)
    · intro k hk
      simp only [ARQBackend.delete, hm, if_neg hst, ARQSession.delete]
      exact lookup_opsAppend_ne s.operations (some j) k (Op.Delete j) hk

/-- Witness for C6 at its `AlreadyCompleted` branch: an empty buffer over a
pool in which job `"X"` has a completed-result record — the handler raises
`PoolJobCompleted` and buffers nothing. -/
theorem C6_delete_handler_branches_witness :
    ARQBackend.delete ⟨[]⟩
        ⟨[("X", ⟨"f", none, 0, none, true, "r", 0, 1, "q", "X"⟩)],
         [], [], [], [], "q"⟩ 9 "X" =
      (⟨[]⟩, Except.error ArqError.poolJobCompleted) :=
  (C6_delete_handler_branches ⟨[]⟩
      ⟨[("X", ⟨"f", none, 0, none, true, "r", 0, 1, "q", "X"⟩)],
       [], [], [], [], "q"⟩ 9 "X").2.1
    (JobModel.result ⟨"f", "X", "complete", none, 0, none, true, "r", 0, 1,
      "q"⟩)
    (by decide) (by decide)

/-- **C8** (code bug), evaluated at a session holding one buffered intent:
`close()` discards the buffer and issues no external call, as claimed; but
`rollback()` — which `ARQSession` never overrides, so the inherited
`BaseSession.rollback` runs — raises `NotImplementedError` and leaves the
buffer intact (while indeed issuing no external call), instead of
discarding it. -/
theorem C8_close_discards_rollback_raises :
    ARQSession.close ⟨[(some "X", [Op.Delete "X"])]⟩ = (⟨[]⟩, []) ∧
    ARQSession.rollback ⟨[(some "X", [Op.Delete "X"])]⟩ =
      (⟨[(some "X", [Op.Delete "X"])]⟩, [], some "NotImplementedError") :=
  ⟨rfl, rfl⟩

/-- **C1** counterexample: a commit holding buffered `Delete`s for job
`"A"` (inserted first; its abort loses the race, a completed-result record
existing) and job `"B"` (whose abort would take effect).  Commit raises the
abort failure naming `"A"`, but `"B"`'s buffered delete is *not* applied to
the external queue — no abort request for `"B"` is ever issued —
contradicting the claim that the buffered intents of every other job id in
the same commit are still applied. -/
theorem C1_counterexample_later_jobs_not_applied :
    (ARQSession.commit
        ⟨[(some "A", [Op.Delete "A"]), (some "B", [Op.Delete "B"])]⟩
        ⟨[("A", ⟨"f", none, 0, none, true, "r", 0, 1, "q", "A"⟩)],
         [], [], [(("q", "B"), 5)], [], "q"⟩ 1000).2.2.2 = some "A" ∧
    PoolCall.zadd "arq:abort" 1000 "B" ∉
      (ARQSession.commit
          ⟨[(some "A", [Op.Delete "A"]), (some "B", [Op.Delete "B"])]⟩
          ⟨[("A", ⟨"f", none, 0, none, true, "r", 0, 1, "q", "A"⟩)],
           [], [], [(("q", "B"), 5)], [], "q"⟩ 1000).2.2.1 := by
  decide

/-- **C1** amended: commit replays the buffer in insertion order and stops
at the first buffered `Delete` whose abort does not take effect.  For a
buffer split `pre ++ (some f, fops) :: post` where every delete buffered in
`pre` and `post` takes effect, `f`'s entry contains a `Delete` (whose job
id is `f`, as `add`/`delete` guarantee), and `f`'s abort does not take
effect: commit raises the abort failure identifying `f`; no buffered
intent of any job is discarded (the buffer is returned untouched); every
intent of the job ids before `f` has been applied to the external queue
(each buffered `Add` issued its enqueue call, each buffered `Delete` its
abort request) and the trace is exactly that of `pre` followed by `f`'s
entry — nothing of `post` is applied; and after `remove_operations f`, a
second commit replays the remaining intents, raises no error, and clears
the buffer. -/
theorem C1_amended_commit_stops_at_first_abort_failure
    (s : ARQSession) (p : PoolState) (now now2 : Int)
    (pre post : List (Option String × List Op)) (f : String) (fops : List Op)
    (hsplit : s.operations = pre ++ (some f, fops) :: post)
    (hnodup : (s.operations.map Prod.fst).Nodup)
    (hfkeys : ∀ j, Op.Delete j ∈ fops → j = f)
    (hother : ∀ k l j, (k, l) ∈ pre ++ post → Op.Delete j ∈ l →
      abortTakesEffect p j = true)
    (hdel : ∃ j, Op.Delete j ∈ fops)
    (hfail : abortTakesEffect p f = false) :
    (s.commit p now).2.2.2 = some f ∧
    (s.commit p now).1 = s ∧
    (s.commit p now).2.2.1 =
      (runEntries p now pre).2.1 ++
        (runOps (runEntries p now pre).1 now fops).2.1 ∧
    (∀ k l c, (k, l) ∈ pre → Op.Add c ∈ l →
      PoolCall.enqueue c ∈ (s.commit p now).2.2.1) ∧
    (∀ k l j, (k, l) ∈ pre → Op.Delete j ∈ l →
      PoolCall.zadd "arq:abort" now j ∈ (s.commit p now).2.2.1) ∧
    (∀ s2, s.remove_operations f = Except.ok s2 →
      (s2.commit (s.commit p now).2.1 now2).2.2.2 = none ∧
      (s2.commit (s.commit p now).2.1 now2).1 = (⟨[]⟩ : ARQSession)) := by
  have hpredel : ∀ k l j, (k, l) ∈ pre → Op.Delete j ∈ l →
      abortTakesEffect p j = true :=
    fun k l j hm hj => hother k l j (List.mem_append_left _ hm) hj
  have hprenone : (runEntries p now pre).2.2 = none :=
    runEntries_err_none now pre p hpredel
  have hprefields := runEntries_fields now pre p
  have hfail' : abortTakesEffect (runEntries p now pre).1 f = false := by
    rw [abortTakesEffect_congr hprefields.1 hprefields.2]
    exact hfail
  have hfopsfail : (runOps (runEntries p now pre).1 now fops).2.2 = some f :=
    runOps_err_fail now f fops _ hfkeys hfail' hdel
  have happ := runEntries_append now pre ((some f, fops) :: post) p hprenone
  have hconsrun : runEntries (runEntries p now pre).1 now
      ((some f, fops) :: post) =
      ((runOps (runEntries p now pre).1 now fops).1,
       (runOps (runEntries p now pre).1 now fops).2.1, some f) := by
    simp [runEntries, hfopsfail]
  have hfull : runEntries p now s.operations =
      ((runOps (runEntries p now pre).1 now fops).1,
       (runEntries p now pre).2.1 ++
         (runOps (runEntries p now pre).1 now fops).2.1,
       some f) := by
    rw [hsplit, happ, hconsrun]
  have hcommit : s.commit p now =
      (s, (runOps (runEntries p now pre).1 now fops).1,
       (runEntries p now pre).2.1 ++
         (runOps (runEntries p now pre).1 now fops).2.1,
       some f) := by
    simp [ARQSession.commit, hfull]
  have htracemem := runEntries_trace_mem now pre p hpredel
  refine ⟨by rw [hcommit], by rw [hcommit], by rw [hcommit], ?_, ?_, ?_⟩
  · intro k l c hm hc
    rw [hcommit]
    exact List.mem_append_left _ (htracemem.1 k l c hm hc)
  · intro k l j hm hj
    rw [hcommit]
    exact List.mem_append_left _ (htracemem.2 k l j hm hj)
  · intro s2 hs2
    have hmap : s.operations.map Prod.fst =
        pre.map Prod.fst ++ some f :: post.map Prod.fst := by
      rw [hsplit]; simp
    rw [hmap] at hnodup
    have hf_pre : some f ∉ pre.map Prod.fst := by
      intro hmem
      exact (List.nodup_append.mp hnodup).2.2 hmem (List.mem_cons_self _ _)
    have hf_post : some f ∉ post.map Prod.fst :=
      (List.nodup_cons.mp (List.nodup_append.mp hnodup).2.1).1
    have hfilter : s.operations.filter (fun e => !(e.1 == some f)) =
        pre ++ post := by
      rw [hsplit]
      exact filter_key_remove pre post f fops hf_pre hf_post
    have hcond : (s.operations.lookup (some f)).isSome = true := by
      rw [hsplit]
      exact lookup_append_self_isSome pre post (some f) fops
    rw [ARQSession.remove_operations, if_pos hcond] at hs2
    injection hs2 with h
    have hs2ops : s2.operations = pre ++ post := by
      rw [← h]
      exact hfilter
    have hp'fields : (s.commit p now).2.1.results = p.results ∧
        (s.commit p now).2.1.in_progress = p.in_progress := by
      rw [hcommit]
      have h1 := runOps_fields now fops (runEntries p now pre).1
      exact ⟨h1.1.trans hprefields.1, h1.2.trans hprefields.2⟩
    have hdel2 : ∀ k l j, (k, l) ∈ pre ++ post → Op.Delete j ∈ l →
        abortTakesEffect (s.commit p now).2.1 j = true := by
      intro k l j hm hj
      rw [abortTakesEffect_congr hp'fields.1 hp'fields.2]
      exact hother k l j hm hj
    have hsecond : (runEntries (s.commit p now).2.1 now2 s2.operations).2.2 =
        none := by
      rw [hs2ops]
      exact runEntries_err_none now2 (pre ++ post) _ hdel2
    have hfin := commit_eq_of_err_none s2 (s.commit p now).2.1 now2 hsecond
    exact ⟨by rw [hfin], by rw [hfin]⟩

/-- Witness for C1's amended claim: three buffered deletes for `"B"`,
`"A"`, `"C"` in that insertion order, where only `"A"` has a
completed-result record; commit raises the abort failure naming `"A"`. -/
theorem C1_amended_commit_stops_witness :
    (ARQSession.commit
        ⟨[(some "B", [Op.Delete "B"]), (some "A", [Op.Delete "A"]),
          (some "C", [Op.Delete "C"])]⟩
        ⟨[("A", ⟨"f", none, 0, none, true, "r", 0, 1, "q", "A"⟩)], [], [],
         [(("q", "B"), 5), (("q", "C"), 7)], [], "q"⟩ 1000).2.2.2 =
      some "A" :=
  (C1_amended_commit_stops_at_first_abort_failure
    ⟨[(some "B", [Op.Delete "B"]), (some "A", [Op.Delete "A"]),
      (some "C", [Op.Delete "C"])]⟩
    ⟨[("A", ⟨"f", none, 0, none, true, "r", 0, 1, "q", "A"⟩)], [], [],
     [(("q", "B"), 5), (("q", "C"), 7)], [], "q"⟩ 1000 2000
    [(some "B", [Op.Delete "B"])] [(some "C", [Op.Delete "C"])] "A"
    [Op.Delete "A"] rfl (by decide)
    (by intro j hj; simp at hj; exact hj)
    (by
      intro k l j hm hj
      simp only [List.cons_append, List.nil_append, List.mem_cons,
                 List.not_mem_nil, or_false] at hm
      rcases hm with hm | hm <;>
        (cases hm; simp at hj; subst hj; decide))
    ⟨"A", by decide⟩ (by decide)).1

end Permissible.Arq

/-- **C4**: permission evaluation returns the action of the first permission
in list order whose principal is among the caller's principals, and `DENY`
when none matches (in particular on the empty list); for
`[DENY(p1), ALLOW(p1)]` and a caller holding `p1` the result is `DENY`. -/
theorem C4_first_match_default_deny
    (principals : List Permissible.Principal)
    (permissions : List Permissible.Permission)
    (p1 : Permissible.Principal) :
    (Permissible.has_permission principals permissions =
      match Permissible.firstMatch principals permissions with
      | some permission => permission.action
      | none => Permissible.Action.DENY) ∧
    Permissible.has_permission principals [] = Permissible.Action.DENY ∧
    Permissible.has_permission [p1]
      [⟨Permissible.Action.DENY, p1⟩, ⟨Permissible.Action.ALLOW, p1⟩] =
      Permissible.Action.DENY := by
  refine ⟨Permissible.has_permission_eq_firstMatch _ _, rfl, ?_⟩
  simp [Permissible.has_permission]
